/-
Verification of the retrieval core of the Document-based Q&A (RAG) system.

This file gives a shallow embedding, in Lean 4, of the data model and the
operations implemented in `src/ingestion.py`, `src/retrieval.py` and
`src/vectorstore.py`, and proves the behavioural properties stated in the
project specification about them.

Modelling conventions:
* A LangChain `Document` becomes the structure `Doc`; its metadata dictionary
  becomes the fixed record `Meta` (the code only ever reads/writes the keys
  `source`, `page`, `file_path`, `chunk_index`, `retriever_source`, `score`).
* Cross-encoder relevance scores (Python floats) are modelled as rationals.
* A Python call that may raise is modelled as a value of `Except String α`;
  the string is `str(exc)`.
* External collaborators (pdfplumber page extraction, the SemanticChunker,
  BM25 construction, the cross-encoder model, the Chroma constructor) are
  parameters of the embedded functions, since their code is not part of this
  repository; everything written in the repository itself is embedded
  concretely.
-/
import Mathlib

set_option linter.unusedVariables false

/-- Fixed record of the metadata keys the code ever attaches to a chunk. -/
structure Meta where
  source : Option String
  page : Option Nat
  file_path : Option String
  chunk_index : Option Nat
  retriever_source : Option String
  score : Option ℚ
deriving DecidableEq, Repr

/-- Metadata dictionary with no keys set. -/
def Meta.empty : Meta := ⟨none, none, none, none, none, none⟩

/-- A LangChain `Document`: page content plus metadata. -/
structure Doc where
  page_content : String
  metadata : Meta
deriving DecidableEq, Repr

/-- Model of Python `str.strip()`: drop whitespace from both ends. -/
def pyStrip (s : String) : String :=
  String.mk (((s.data.dropWhile Char.isWhitespace).reverse.dropWhile Char.isWhitespace).reverse)

/-- Model of Python `str.lower()`. -/
def pyLower (s : String) : String := String.mk (s.data.map Char.toLower)

/-- Model of Python `str.endswith(pat)`. -/
def pyEndsWith (s pat : String) : Bool := pat.data.isSuffixOf s.data

/-- A Python value appearing in a source filter list: either a string or a
value of some other runtime type (the code tests `isinstance(s, str)`). -/
inductive PyVal where
  | str (s : String)
  | nonstr
deriving DecidableEq, Repr

/-- The set comprehension in `AdvancedRetriever._filter_by_sources`:
`{s for s in source_filter if isinstance(s, str) and s.strip()}`.
Membership in the resulting Python set coincides with membership in this
list, so the set is modelled as a list. -/
def validSources (source_filter : List PyVal) : List String :=
  source_filter.filterMap fun v =>
    match v with
    | .str s => if pyStrip s = "" then none else some s
    | .nonstr => none

/-- Embedding of `AdvancedRetriever._filter_by_sources` (retrieval.py).
`none` is Python `None`; `if not source_filter` is also true for the empty
list, which the `isEmpty` branch mirrors.  A document whose metadata has no
`source` key (the `(d.metadata or {}).get("source")` guard) matches no
allow-list entry. -/
def filter_by_sources (docs : List Doc) (source_filter : Option (List PyVal)) : List Doc :=
  match source_filter with
  | none => docs
  | some sf =>
    if sf.isEmpty then docs
    else
      let allowed := validSources sf
      if allowed.isEmpty then docs
      else
        docs.filter fun d =>
          match d.metadata.source with
          | some s => allowed.contains s
          | none => false

/-- Embedding of `AdvancedRetriever.get_relevant_documents` (retrieval.py).
`chain` is `self.retrieve_chain.invoke`, `base` is `self.base_retriever.invoke`;
each is a call that may raise.  The two nested `try/except` blocks become the
two `match`es on the `Except` results. -/
def get_relevant_documents (chain base : String → Except String (List Doc))
    (query : String) (source_filter : Option (List PyVal)) : Except String (List Doc) :=
  match chain query with
  | .ok docs => .ok (filter_by_sources docs source_filter)
  | .error _ =>
    match base query with
    | .ok docs => .ok (filter_by_sources docs source_filter)
    | .error _ => .ok []

/-- Concrete documents used to instantiate the theorems below. -/
def docA : Doc := ⟨"alpha text", { Meta.empty with source := some "a.pdf", page := some 1 }⟩

def docB : Doc := ⟨"beta text", { Meta.empty with source := some "b.pdf", page := some 2 }⟩

def docC : Doc := ⟨"gamma text", { Meta.empty with source := some "c.pdf", page := some 3 }⟩

/-- Retriever stub that always raises, used to instantiate the theorems. -/
def failingRetriever : String → Except String (List Doc) := fun _ => .error "boom"

/-- Plain (non-raising) retriever stub returning the single document `docA`. -/
def okVecRetriever : String → List Doc := fun _ => [docA]

/-- Retriever stub that always returns the single document `docA`. -/
def okRetrieverA : String → Except String (List Doc) := fun _ => .ok [docA]

/-- Abstraction of the cross-encoder model object: `hasattr(model, "score")`
holds exactly when `scoreFn` is `some`, `hasattr(model, "predict")` exactly
when `predictFn` is `some`; each call may raise. -/
structure CEModel where
  scoreFn : Option (List (String × String) → Except String (List ℚ))
  predictFn : Option (List (String × String) → Except String (List ℚ))

/-- The capability dispatch inside `SafeCrossEncoderReranker.compress_documents`:
try `.score()` first, then `.predict()`; `none` means neither attribute exists. -/
def ceDispatch (m : CEModel) (pairs : List (String × String)) :
    Option (Except String (List ℚ)) :=
  match m.scoreFn with
  | some f => some (f pairs)
  | none =>
    match m.predictFn with
    | some f => some (f pairs)
    | none => none

/-- Comparison used to embed `doc_score_pairs.sort(key=lambda x: x[1], reverse=True)`:
Python `list.sort` is a stable sort, and a stable sort in descending key order
is exactly `List.mergeSort` (itself stable) under this total preorder. -/
def pyDescLE (a b : Doc × ℚ) : Bool := decide (b.2 ≤ a.2)

/-- Attaching the relevance score: `doc.metadata["score"] = float(score)`. -/
def attachScore (p : Doc × ℚ) : Doc :=
  { p.1 with metadata := { p.1.metadata with score := some p.2 } }

/-- Embedding of `SafeCrossEncoderReranker.compress_documents` (retrieval.py). -/
def compress_documents (m : CEModel) (top_n : Nat) (documents : List Doc)
    (query : String) : List Doc :=
  if documents.isEmpty then []
  else
    let pairs := documents.map fun d => (query, d.page_content)
    match ceDispatch m pairs with
    | none => documents.take top_n
    | some (.error _) => documents.take top_n
    | some (.ok scores) =>
      let doc_score_pairs := (documents.zip scores).mergeSort pyDescLE
      (doc_score_pairs.take top_n).map attachScore

/-- Specification-side order for a stable descending sort: score strictly
descending, with equal scores ordered by original position. On index-tagged
elements of one list this order is antisymmetric, so the sorted result is
unique. -/
def descIdxLE (a b : Nat × (Doc × ℚ)) : Bool :=
  if a.2.2 = b.2.2 then decide (a.1 ≤ b.1) else decide (b.2.2 ≤ a.2.2)

/-- Textbook insertion into a sorted list, used for the specification-side
sort (deliberately a different algorithm than the embedded code's). -/
def insertOrd (le : α → α → Bool) (x : α) : List α → List α
  | [] => [x]
  | y :: ys => if le x y then x :: y :: ys else y :: insertOrd le x ys

/-- Textbook insertion sort for the specification side. -/
def insertionSortOrd (le : α → α → Bool) : List α → List α
  | [] => []
  | x :: xs => insertOrd le x (insertionSortOrd le xs)

/-- The specification's "sort by score descending; stable tie-break by
original fusion order": tag each (document, score) pair with its original
position, insertion-sort by (score descending, position ascending), and
erase the tags. -/
def rerankStableSpec (l : List (Doc × ℚ)) : List (Doc × ℚ) :=
  (insertionSortOrd descIdxLE l.enum).map (·.2)

/-- A cross-encoder stub whose `score` capability returns the spec example's
scores `[0.2, 0.9, 0.5]`. -/
def ceModelEx : CEModel := ⟨some fun _ => .ok [0.2, 0.9, 0.5], none⟩

/-- A cross-encoder stub with neither `score` nor `predict`. -/
def ceModelNone : CEModel := ⟨none, none⟩

/-- A cross-encoder stub whose `score` capability always raises. -/
def ceModelBoom : CEModel := ⟨some fun _ => .error "boom", none⟩

/-- The rational 0.2 in normalized form (kernel-computable). -/
def r02 : ℚ := ⟨1, 5, by norm_num, by norm_num⟩

/-- The rational 0.9 in normalized form (kernel-computable). -/
def r09 : ℚ := ⟨9, 10, by norm_num, by norm_num⟩

/-- The rational 0.5 in normalized form (kernel-computable). -/
def r05 : ℚ := ⟨1, 2, by norm_num, by norm_num⟩

/-- Attaching the originating retriever tag inside the ensemble loop:
`doc.metadata["retriever_source"] = f"retriever_{j}"`. -/
def tagRetriever (j : Nat) (doc : Doc) : Doc :=
  { doc with metadata :=
      { doc.metadata with retriever_source := some ("retriever_" ++ toString j) } }

/-- One inner-loop iteration of `SimpleEnsembleRetriever._get_relevant_documents`:
at round `i`, retriever `j`'s list contributes its `i`-th element when that
index exists and the content was not emitted yet.  `hash(doc.page_content)`
is modelled by the content string itself: the deduplication criterion is
"identical content hash", and equal strings have equal hashes. -/
def ensembleStep (i : Nat) (st : List String × List Doc) (j : Nat)
    (doc_list : List Doc) : List String × List Doc :=
  match doc_list[i]? with
  | none => st
  | some doc =>
    if st.1.contains doc.page_content then st
    else (doc.page_content :: st.1, st.2 ++ [tagRetriever j doc])

/-- Embedding of `SimpleEnsembleRetriever._get_relevant_documents`
(retrieval.py), applied to the per-retriever result lists for one query.
`max(len(l) for l in all_docs_lists)` raises on an empty retriever list; the
retriever list is fixed at construction (two retrievers in the hybrid
configuration), so the maximum is modelled with default 0. -/
def ensemble_get_relevant_documents (all_docs_lists : List (List Doc)) : List Doc :=
  ((List.range (((all_docs_lists.map List.length).max?).getD 0)).foldl
    (fun st i => all_docs_lists.enum.foldl
      (fun st2 jdl => ensembleStep i st2 jdl.1 jdl.2) st)
    ([], [])).2

/-- Specification-side emission of one candidate: append it when present and
its content was not emitted yet, tagged with its originating retriever. -/
def rrEmit (j : Nat) (d? : Option Doc) (st : List String × List Doc) :
    List String × List Doc :=
  match d? with
  | none => st
  | some d =>
    if st.1.contains d.page_content then st
    else (d.page_content :: st.1, st.2 ++ [tagRetriever j d])

/-- The specification's fusion algorithm for two ranked lists: round-robin
over rank positions (the lexical candidate first at each round), skipping a
candidate whose content was already emitted by either list, until both lists
are exhausted.  Returns the final seen-set and the fused output. -/
def roundRobinFuse (seen : List String) (lex vec : List Doc) :
    List String × List Doc :=
  if lex = [] ∧ vec = [] then (seen, [])
  else
    let st2 := rrEmit 1 vec.head? (rrEmit 0 lex.head? (seen, []))
    let rest := roundRobinFuse st2.1 lex.tail vec.tail
    (rest.1, st2.2 ++ rest.2)
termination_by lex.length + vec.length
decreasing_by
  simp only [List.length_tail]
  by_cases hl : lex = []
  · by_cases hv : vec = []
    · exact absurd (show lex = [] ∧ vec = [] from ⟨hl, hv⟩) (by assumption)
    · have hv' : vec.length ≠ 0 := fun hc => hv (List.length_eq_zero.1 hc)
      omega
  · have hl' : lex.length ≠ 0 := fun hc => hl (List.length_eq_zero.1 hc)
    omega

/-- Embedding of the retriever-construction logic in
`AdvancedRetriever` (retrieval.py): `getResult` is `self.vectorstore.get()`
restricted to its `documents` and `metadatas` columns, and `bm25Build` is
`BM25Retriever.from_documents` (with `k = TOP_K` absorbed into the returned
function); either raising is caught by the surrounding `try`.  The returned
function is what `self.base_retriever.invoke` computes per query. -/
def initRetrieversBase (getResult : Except String (List String × List Meta))
    (bm25Build : List Doc → Except String (String → List Doc))
    (vector_retriever : String → List Doc) : String → List Doc :=
  let bm25_retriever : Option (String → List Doc) :=
    match getResult with
    | .error _ => none
    | .ok tm =>
      if tm.1.isEmpty then none
      else
        match bm25Build ((tm.1.zip tm.2).map fun p => Doc.mk p.1 p.2) with
        | .ok r => some r
        | .error _ => none
  match bm25_retriever with
  | some bm25 =>
    fun query => ensemble_get_relevant_documents [bm25 query, vector_retriever query]
  | none => vector_retriever

/-- Result of `page.extract_text()` for one pdfplumber page; `none` is
Python `None`. -/
abbrev PageText := Option String

/-- Model of `os.path.basename` for POSIX paths: the characters after the
last path separator. -/
def basename (p : String) : String :=
  String.mk ((p.data.reverse.takeWhile fun c => decide (c ≠ '/')).reverse)

/-- Embedding of `load_pdf_with_metadata` (ingestion.py): one document per
page whose extracted text is non-empty and not all whitespace
(`if text and text.strip()`), with source, 1-based page number and file path
metadata.  The caller resolves `source_name or basename(file_path)` before
calling, so `filename` arrives resolved. -/
def load_pdf_with_metadata (extracted : List PageText) (file_path filename : String) :
    List Doc :=
  extracted.enum.filterMap fun p =>
    match p.2 with
    | some text =>
      if text ≠ "" ∧ pyStrip text ≠ "" then
        some ⟨text, { Meta.empty with
          source := some filename
          page := some (p.1 + 1)
          file_path := some file_path }⟩
      else none
    | none => none

/-- One stored record of the vector index: the Chroma id and the stored
chunk. -/
structure VSRecord where
  id : String
  doc : Doc
deriving DecidableEq, Repr

/-- The persistent vector index state: the list of stored records. -/
abbrev VectorStore := List VSRecord

/-- Embedding of `vectorstore.delete(where={"source": filename})`: remove
every record whose metadata `source` equals the target name. -/
def vsDeleteWhereSource (vs : VectorStore) (filename : String) : VectorStore :=
  vs.filter fun r => r.doc.metadata.source ≠ some filename

/-- Embedding of `vectorstore.add_documents(chunks, ids=ids)`:
`langchain_chroma` forwards `add_documents` to the collection's `upsert`, so
a record whose id already exists is replaced and a fresh id is appended. -/
def vsUpsert (vs : VectorStore) (ids : List String) (chunks : List Doc) : VectorStore :=
  (ids.zip chunks).foldl
    (fun acc ic => (acc.filter fun r => r.id ≠ ic.1) ++ [⟨ic.1, ic.2⟩]) vs

/-- Exceptions raised by the single-file ingestion preconditions. -/
inductive IngestErr where
  | fileNotFound (msg : String)
  | valueError (msg : String)
deriving DecidableEq, Repr

/-- The statistics dictionary returned by a successful single-file ingest. -/
structure IngestStats where
  pages : Nat
  chunks : Nat
deriving DecidableEq, Repr

/-- The page component of a chunk id: `chunk.metadata.get("page", "na")`. -/
def pageTag (c : Doc) : String :=
  match c.metadata.page with
  | some p => toString p
  | none => "na"

/-- Embedding of `_ingest_document_with_resources` (ingestion.py).
`fileExists` stands for `os.path.exists(file_path)`, `extracted` for the
pdfplumber page texts, and `chunker` for the external `SemanticChunker`
bound to the already-initialized embeddings.  The vector store is threaded
explicitly; on each error path it is returned unchanged, because the
exception is raised before any store call. -/
def ingest_document_with_resources (fileExists : Bool) (extracted : List PageText)
    (chunker : List Doc → List Doc) (file_path : String) (source_name : Option String)
    (vs : VectorStore) : Except IngestErr IngestStats × VectorStore :=
  if !fileExists then
    (.error (.fileNotFound ("File not found: " ++ file_path)), vs)
  else if !(pyEndsWith (pyLower file_path) ".pdf") then
    (.error (.valueError "Only PDF files are supported for ingestion."), vs)
  else
    let filename := source_name.getD (basename file_path)
    let raw_docs := load_pdf_with_metadata extracted file_path filename
    if raw_docs.isEmpty then
      (.error (.valueError "No extractable text found in the PDF."), vs)
    else
      let chunks0 := chunker raw_docs
      let vs1 := vsDeleteWhereSource vs filename
      let chunks := chunks0.enum.map fun ic =>
        { ic.2 with metadata := { ic.2.metadata with chunk_index := some ic.1 } }
      let ids := chunks.enum.map fun ic =>
        filename ++ ":" ++ pageTag ic.2 ++ ":" ++ toString ic.1
      (.ok ⟨raw_docs.length, chunks.length⟩, vsUpsert vs1 ids chunks)

/-- Number of live records for one source name. -/
def countSource (vs : VectorStore) (filename : String) : Nat :=
  (vs.filter fun r => r.doc.metadata.source = some filename).length

/-- Per-file environment of a batch call: the path together with the
externally determined facts about the file (existence, extracted pages). -/
structure FileInput where
  file_path : String
  fileExists : Bool
  extracted : List PageText
deriving DecidableEq, Repr

/-- One entry of the `ingested` list returned by `ingest_documents`. -/
structure IngestedEntry where
  file_path : String
  source : String
  pages : Nat
  chunks : Nat
deriving DecidableEq, Repr

/-- One entry of the `failed` list returned by `ingest_documents`. -/
structure FailedEntry where
  file_path : String
  source : String
  error : IngestErr
deriving DecidableEq, Repr

/-- The dictionary returned by `ingest_documents`. -/
structure BatchResult where
  ingested : List IngestedEntry
  failed : List FailedEntry
  total_chunks : Nat
deriving DecidableEq, Repr

/-- `source_names[idx] if source_names else None` for file number `idx`. -/
def sourceNameFor (source_names : Option (List String)) (idx : Nat) : Option String :=
  match source_names with
  | none => none
  | some l => l[idx]?

/-- The guard `if source_names and len(source_names) != len(file_paths)`:
note that an empty `source_names` list is falsy in Python and raises no
mismatch error. -/
def sourceNamesMismatch (source_names : Option (List String)) (nfiles : Nat) : Bool :=
  match source_names with
  | none => false
  | some l => !l.isEmpty && decide (l.length ≠ nfiles)

/-- One iteration of the batch loop in `ingest_documents`: ingest the indexed
file against the shared store, recording success into `ingested` and any
caught exception into `failed`. -/
def batchStep (chunker : List Doc → List Doc) (source_names : Option (List String))
    (st : BatchResult × VectorStore) (idxf : Nat × FileInput) :
    BatchResult × VectorStore :=
  let sn := sourceNameFor source_names idxf.1
  let src := sn.getD (basename idxf.2.file_path)
  let r := ingest_document_with_resources idxf.2.fileExists idxf.2.extracted
    chunker idxf.2.file_path sn st.2
  match r.1 with
  | .ok stats =>
    (⟨st.1.ingested ++ [⟨idxf.2.file_path, src, stats.pages, stats.chunks⟩],
      st.1.failed, st.1.total_chunks + stats.chunks⟩, r.2)
  | .error e =>
    (⟨st.1.ingested, st.1.failed ++ [⟨idxf.2.file_path, src, e⟩],
      st.1.total_chunks⟩, r.2)

/-- Embedding of `ingest_documents` (ingestion.py): the embeddings and the
vector store handle are constructed once for the batch (modelled by the one
`chunker` and the one threaded store), files are processed sequentially, and
each file's exception is captured as data. -/
def ingest_documents (files : List FileInput) (source_names : Option (List String))
    (chunker : List Doc → List Doc) (vs0 : VectorStore) :
    Except String (BatchResult × VectorStore) :=
  if files.isEmpty then .ok (⟨[], [], 0⟩, vs0)
  else if sourceNamesMismatch source_names files.length then
    .error "source_names length must match file_paths length."
  else
    .ok (files.enum.foldl (batchStep chunker source_names) (⟨[], [], 0⟩, vs0))

/-- The outcome of one file's ingestion evaluated on the empty store.  The
ingestion preconditions never consult the store, so (as proved below) this
is the file's outcome in any batch position and on any store state. -/
def fileOutcome (f : FileInput) (sn : Option String)
    (chunker : List Doc → List Doc) : Except IngestErr IngestStats :=
  (ingest_document_with_resources f.fileExists f.extracted chunker f.file_path sn []).1

/-- The `ingested` entry an indexed file contributes when it succeeds. -/
def okEntry (chunker : List Doc → List Doc) (source_names : Option (List String))
    (idxf : Nat × FileInput) : Option IngestedEntry :=
  match fileOutcome idxf.2 (sourceNameFor source_names idxf.1) chunker with
  | .ok st => some ⟨idxf.2.file_path,
      (sourceNameFor source_names idxf.1).getD (basename idxf.2.file_path),
      st.pages, st.chunks⟩
  | .error _ => none

/-- The `failed` entry an indexed file contributes when it fails. -/
def errEntry (chunker : List Doc → List Doc) (source_names : Option (List String))
    (idxf : Nat × FileInput) : Option FailedEntry :=
  match fileOutcome idxf.2 (sourceNameFor source_names idxf.1) chunker with
  | .ok _ => none
  | .error e => some ⟨idxf.2.file_path,
      (sourceNameFor source_names idxf.1).getD (basename idxf.2.file_path), e⟩

/-- Numeric value of a decimal digit character (proof helper). -/
def digitVal (c : Char) : Nat := c.toNat - 48

/-- Value of a digit string (proof helper for chunk-id uniqueness). -/
def digitsVal (l : List Char) : Nat := l.foldl (fun a c => a * 10 + digitVal c) 0

/-- The chunk produced by ingesting the one-page sample file `a.pdf`. -/
def chunkHello : Doc := ⟨"hello", { Meta.empty with
  source := some "a.pdf"
  page := some 1
  file_path := some "a.pdf"
  chunk_index := some 0 }⟩

/-- The store contents after ingesting the sample file `a.pdf`. -/
def vsAfterFirst : VectorStore := [⟨"a.pdf:1:0", chunkHello⟩]

/-- Batch sample: a readable one-page file. -/
def fileOk : FileInput := ⟨"ok.pdf", true, [some "hello"]⟩

/-- Batch sample: a file with no extractable text. -/
def fileBad : FileInput := ⟨"bad.pdf", true, []⟩

/-- Substring test: model of Python's `in` operator on strings. -/
def strContains (s pat : String) : Bool :=
  (List.range (s.data.length + 1)).any fun k => pat.data.isPrefixOf (s.data.drop k)

/-- Embedding of `_is_recoverable_chroma_error` (vectorstore.py): the
recognized corruption class, matched on the lowercased exception text. -/
def is_recoverable_chroma_error (text : String) : Bool :=
  let t := pyLower text
  strContains t "pyo3_runtime.panicexception"
    || strContains t "range start index"
    || strContains t "could not connect to tenant default_tenant"

/-- One on-disk directory: its path and its contents. -/
structure Dir where
  name : String
  files : List String
deriving DecidableEq, Repr

/-- The file-system state relevant to the store: the directories present. -/
abbrev FS := List Dir

/-- The configured persistence directory (imported as
`CHROMA_PERSIST_DIRECTORY` from the configuration; its concrete value is
irrelevant to the properties proved about it). -/
def CHROMA_PERSIST_DIRECTORY : String := "chroma_db"

/-- Embedding of `repair_chroma_directory` (vectorstore.py): if the persisted
directory exists, move it aside (`shutil.move`) under a
`_corrupt_<timestamp>` suffix; then `os.makedirs(..., exist_ok=True)` an
empty persisted directory; return the backup path. -/
def repair_chroma_directory (fs : FS) (ts : String) : FS × String :=
  let source_dir := CHROMA_PERSIST_DIRECTORY
  let backup_dir := source_dir ++ "_corrupt_" ++ ts
  let moved : FS :=
    match fs.find? fun d => d.name = source_dir with
    | some d => (fs.filter fun e => e.name ≠ source_dir) ++ [⟨backup_dir, d.files⟩]
    | none => fs
  let made : FS :=
    if moved.any fun d => d.name = source_dir then moved
    else moved ++ [⟨source_dir, []⟩]
  (made, backup_dir)

/-- Observable events of one store-open call. -/
inductive StoreEv where
  | openAttempt
  | repairAttempt
deriving DecidableEq, Repr

/-- Embedding of `get_chroma_vectorstore` (vectorstore.py).  `openStore` is
the external `Chroma(...)` constructor, whose outcome may depend on the
file-system state; the result is the constructor's value or the propagated
error, together with the resulting file-system state and the trace of
open/repair attempts performed. -/
def get_chroma_vectorstore (openStore : FS → Except String Unit)
    (allow_repair : Bool) (fs : FS) (ts : String) :
    Except String Unit × FS × List StoreEv :=
  match openStore fs with
  | .ok s => (.ok s, fs, [.openAttempt])
  | .error exc =>
    if !allow_repair || !(is_recoverable_chroma_error exc) then
      (.error exc, fs, [.openAttempt])
    else
      let r := repair_chroma_directory fs ts
      (openStore r.1, r.1, [.openAttempt, .repairAttempt, .openAttempt])

/-- Exception text of the recognized corruption class, used to instantiate
the repair theorem. -/
def corruptText : String := "PyO3_runtime.PanicException: range start index boom"

/-- Sample file system: one persisted store directory with one data file. -/
def fsEx : FS := [⟨"chroma_db", ["data.bin"]⟩]

/-- Sample Chroma constructor: raises the recognized corruption error on the
original state and succeeds on any other state. -/
def openEx : FS → Except String Unit := fun fs =>
  if fs = fsEx then .error corruptText else .ok ()

/-- C9: source filtering is a pure function over chunk metadata: an absent,
empty, or all-invalid filter returns the document list unchanged; a filter
with at least one valid entry keeps exactly the documents whose metadata
source lies in the valid set, and therefore a valid filter matching no
document yields the empty list. -/
theorem c9_source_filter (docs : List Doc) (source_filter : Option (List PyVal)) :
    (source_filter = none → filter_by_sources docs source_filter = docs) ∧
    (∀ sf, source_filter = some sf → validSources sf = [] →
      filter_by_sources docs source_filter = docs) ∧
    (∀ sf, source_filter = some sf → validSources sf ≠ [] →
      filter_by_sources docs source_filter =
        docs.filter fun d =>
          match d.metadata.source with
          | some s => (validSources sf).contains s
          | none => false) ∧
    (∀ sf, source_filter = some sf → validSources sf ≠ [] →
      (∀ d ∈ docs, ∀ s, d.metadata.source = some s → (validSources sf).contains s = false) →
      filter_by_sources docs source_filter = []) := by
  refine ⟨?_, ?_, ?_, ?_⟩
  · rintro rfl; rfl
  · rintro sf rfl hval
    cases hsf : sf.isEmpty <;> simp [filter_by_sources, hsf, hval]
  · rintro sf rfl hval
    have hne : sf.isEmpty = false := by
      cases sf with
      | nil => simp [validSources] at hval
      | cons a l => rfl
    simp only [filter_by_sources, hne, Bool.false_eq_true, if_false]
    rw [if_neg (by simpa [List.isEmpty_iff] using hval)]
  · rintro sf rfl hval hnone
    have hne : sf.isEmpty = false := by
      cases sf with
      | nil => simp [validSources] at hval
      | cons a l => rfl
    simp only [filter_by_sources, hne, Bool.false_eq_true, if_false]
    rw [if_neg (by simpa [List.isEmpty_iff] using hval)]
    rw [List.filter_eq_nil_iff]
    intro d hd
    cases hsrc : d.metadata.source with
    | none => simp
    | some s => simpa using hnone d hd s hsrc

/-- Instantiation of the C9 theorem: a valid filter naming only `x.pdf`
matches none of the three sample documents and yields the empty list, while
an all-invalid filter leaves the list untouched. -/
theorem c9_source_filter_witness :
    filter_by_sources [docA, docB] (some [PyVal.str "x.pdf"]) = [] ∧
    filter_by_sources [docA, docB] (some [PyVal.nonstr, PyVal.str "  "]) = [docA, docB] := by
  constructor
  · exact (c9_source_filter [docA, docB] (some [PyVal.str "x.pdf"])).2.2.2
      [PyVal.str "x.pdf"] rfl (by decide) (by decide)
  · exact (c9_source_filter [docA, docB] (some [PyVal.nonstr, PyVal.str "  "])).2.1
      [PyVal.nonstr, PyVal.str "  "] rfl (by decide)

/-- C2: the retrieval entry point never raises: it returns `ok` for every
query and filter; when the full chain raises it falls back to the base
retriever's (filtered) result, and when that also raises it returns the
empty list. -/
theorem c2_retrieval_never_raises (chain base : String → Except String (List Doc))
    (query : String) (source_filter : Option (List PyVal)) :
    (∃ docs, get_relevant_documents chain base query source_filter = .ok docs) ∧
    (∀ ds, chain query = .ok ds →
      get_relevant_documents chain base query source_filter =
        .ok (filter_by_sources ds source_filter)) ∧
    (∀ e ds, chain query = .error e → base query = .ok ds →
      get_relevant_documents chain base query source_filter =
        .ok (filter_by_sources ds source_filter)) ∧
    (∀ e e2, chain query = .error e → base query = .error e2 →
      get_relevant_documents chain base query source_filter = .ok []) := by
  refine ⟨?_, ?_, ?_, ?_⟩
  · unfold get_relevant_documents
    cases chain query with
    | ok ds => exact ⟨_, rfl⟩
    | error e =>
      cases base query with
      | ok ds => exact ⟨_, rfl⟩
      | error e2 => exact ⟨_, rfl⟩
  · intro ds h; unfold get_relevant_documents; rw [h]
  · intro e ds h h2; unfold get_relevant_documents; rw [h, h2]
  · intro e e2 h h2; unfold get_relevant_documents; rw [h, h2]

/-- Instantiation of the C2 theorem: with a raising chain the wrapper returns
the base result, and with both raising it returns the empty list. -/
theorem c2_retrieval_never_raises_witness :
    get_relevant_documents failingRetriever okRetrieverA "q" none = .ok [docA] ∧
    get_relevant_documents failingRetriever failingRetriever "q" none = .ok [] := by
  constructor
  · exact (c2_retrieval_never_raises failingRetriever okRetrieverA "q" none).2.2.1
      "boom" [docA] rfl rfl
  · exact (c2_retrieval_never_raises failingRetriever failingRetriever "q" none).2.2.2
      "boom" "boom" rfl rfl

/-- Inserting into a list is a permutation of consing. -/
theorem insertOrd_perm (le : α → α → Bool) (x : α) (l : List α) :
    List.Perm (insertOrd le x l) (x :: l) := by
  induction l with
  | nil => rfl
  | cons y ys ih =>
    unfold insertOrd
    by_cases h : le x y = true
    · rw [if_pos h]
    · rw [if_neg h]
      exact (List.Perm.cons y ih).trans (List.Perm.swap x y ys)

/-- Insertion sort permutes its input. -/
theorem insertionSortOrd_perm (le : α → α → Bool) (l : List α) :
    List.Perm (insertionSortOrd le l) l := by
  induction l with
  | nil => rfl
  | cons x xs ih => exact (insertOrd_perm le x _).trans (List.Perm.cons x ih)

/-- Inserting into a sorted list keeps it sorted, for a total transitive
comparison. -/
theorem insertOrd_pairwise (le : α → α → Bool)
    (htrans : ∀ a b c, le a b = true → le b c = true → le a c = true)
    (htotal : ∀ a b, (le a b || le b a) = true) (x : α) :
    ∀ l : List α, l.Pairwise (fun a b => le a b = true) →
      (insertOrd le x l).Pairwise (fun a b => le a b = true)
  | [], _ => by simp [insertOrd]
  | y :: ys, hl => by
    unfold insertOrd
    by_cases h : le x y = true
    · rw [if_pos h]
      refine List.Pairwise.cons ?_ hl
      intro z hz
      rcases List.mem_cons.1 hz with rfl | hz
      · exact h
      · exact htrans _ _ _ h (List.rel_of_pairwise_cons hl hz)
    · rw [if_neg h]
      have hyx : le y x = true := by
        have ht := htotal x y
        rw [Bool.or_eq_true] at ht
        rcases ht with h1 | h1
        · exact absurd h1 h
        · exact h1
      refine List.Pairwise.cons ?_ (insertOrd_pairwise le htrans htotal x ys hl.tail)
      intro z hz
      rcases (insertOrd_perm le x ys).mem_iff.1 hz with hz'
      rcases List.mem_cons.1 hz' with rfl | hz''
      · exact hyx
      · exact List.rel_of_pairwise_cons hl hz''

/-- Insertion sort sorts, for a total transitive comparison. -/
theorem insertionSortOrd_pairwise (le : α → α → Bool)
    (htrans : ∀ a b c, le a b = true → le b c = true → le a c = true)
    (htotal : ∀ a b, (le a b || le b a) = true) :
    ∀ l : List α, (insertionSortOrd le l).Pairwise (fun a b => le a b = true)
  | [] => List.Pairwise.nil
  | x :: xs =>
    insertOrd_pairwise le htrans htotal x _ (insertionSortOrd_pairwise le htrans htotal xs)

/-- The Python sort comparison is transitive. -/
theorem pyDescLE_trans :
    ∀ a b c : Doc × ℚ, pyDescLE a b = true → pyDescLE b c = true → pyDescLE a c = true := by
  intro a b c hab hbc
  simp only [pyDescLE, decide_eq_true_eq] at *
  exact le_trans hbc hab

/-- The Python sort comparison is total. -/
theorem pyDescLE_total : ∀ a b : Doc × ℚ, (pyDescLE a b || pyDescLE b a) = true := by
  intro a b
  simp only [pyDescLE, Bool.or_eq_true, decide_eq_true_eq]
  exact le_total b.2 a.2

/-- The specification-side order coincides with the index-tagged lift of the
code's comparison. -/
theorem descIdxLE_eq_enumLE :
    ∀ a b : Nat × (Doc × ℚ), descIdxLE a b = List.enumLE pyDescLE a b := by
  intro a b
  by_cases h : a.2.2 = b.2.2
  · simp [descIdxLE, List.enumLE, pyDescLE, h]
  · by_cases hle : b.2.2 ≤ a.2.2
    · have hnle : ¬ a.2.2 ≤ b.2.2 := fun hc => h (le_antisymm hc hle)
      simp [descIdxLE, List.enumLE, pyDescLE, h, hle, hnle]
    · simp [descIdxLE, List.enumLE, pyDescLE, h, hle]

/-- The specification-side order is transitive. -/
theorem descIdxLE_trans :
    ∀ a b c, descIdxLE a b = true → descIdxLE b c = true → descIdxLE a c = true := by
  intro a b c
  rw [descIdxLE_eq_enumLE, descIdxLE_eq_enumLE, descIdxLE_eq_enumLE]
  exact List.enumLE_trans pyDescLE_trans a b c

/-- The specification-side order is total. -/
theorem descIdxLE_total : ∀ a b, (descIdxLE a b || descIdxLE b a) = true := by
  intro a b
  rw [descIdxLE_eq_enumLE, descIdxLE_eq_enumLE]
  exact List.enumLE_total pyDescLE_total a b

/-- Mutual comparability under the index-tagged lift forces equal indices. -/
theorem enumLE_antisymm_fst {a b : Nat × (Doc × ℚ)}
    (hab : List.enumLE pyDescLE a b = true) (hba : List.enumLE pyDescLE b a = true) :
    a.1 = b.1 := by
  by_cases hxy : pyDescLE a.2 b.2 = true <;> by_cases hyx : pyDescLE b.2 a.2 = true <;>
    simp [List.enumLE, hxy, hyx] at hab hba
  omega

/-- The code's stable merge sort in descending score order equals the
specification's insertion sort over index-tagged pairs: the two agree on the
sorted candidate list, ties resolved by original position. -/
theorem mergeSort_pyDescLE_eq_spec (l : List (Doc × ℚ)) :
    l.mergeSort pyDescLE = rerankStableSpec l := by
  have h1 : (l.enum.mergeSort (List.enumLE pyDescLE)).map (·.2) = l.mergeSort pyDescLE :=
    List.mergeSort_enum
  rw [← h1]
  unfold rerankStableSpec
  congr 1
  apply @List.Perm.eq_of_sorted _ (fun a b => List.enumLE pyDescLE a b = true) _ _
  · intro a b ha hb hab hba
    have ha' : a ∈ l.enum := List.mem_mergeSort.1 ha
    have hb' : b ∈ l.enum := (insertionSortOrd_perm descIdxLE l.enum).mem_iff.1 hb
    have hfst : a.1 = b.1 := enumLE_antisymm_fst hab hba
    have hga : l[a.1]? = some a.2 := List.mem_enum_iff_getElem?.1 ha'
    have hgb : l[b.1]? = some b.2 := List.mem_enum_iff_getElem?.1 hb'
    rw [hfst] at hga
    rw [hga] at hgb
    have hsnd : a.2 = b.2 := by injection hgb
    exact Prod.ext hfst hsnd
  · exact List.sorted_mergeSort (List.enumLE_trans pyDescLE_trans)
      (List.enumLE_total pyDescLE_total) _
  · refine (insertionSortOrd_pairwise descIdxLE descIdxLE_trans descIdxLE_total l.enum).imp ?_
    intro a b hh
    rwa [descIdxLE_eq_enumLE] at hh
  · exact (List.mergeSort_perm _ _).trans (insertionSortOrd_perm _ _).symm

/-- C4: when the scoring call succeeds on a non-empty candidate list, rerank
returns the candidates in stable descending score order (ties by original
fusion position), truncated to `top_n`, with the score attached to each
surviving candidate's metadata. -/
theorem c4_rerank_order (m : CEModel) (top_n : Nat) (documents : List Doc)
    (query : String) (scores : List ℚ)
    (hne : documents ≠ [])
    (hs : ceDispatch m (documents.map fun d => (query, d.page_content)) = some (.ok scores))
    (hlen : scores.length = documents.length) :
    compress_documents m top_n documents query
      = ((rerankStableSpec (documents.zip scores)).take top_n).map attachScore ∧
    (compress_documents m top_n documents query).length = min top_n documents.length ∧
    (compress_documents m top_n documents query).Pairwise
      (fun a b => ∀ x y, a.metadata.score = some x → b.metadata.score = some y → y ≤ x) := by
  have hemp : documents.isEmpty = false := by
    cases documents with
    | nil => exact absurd rfl hne
    | cons d ds => rfl
  have hcode : compress_documents m top_n documents query
      = (((documents.zip scores).mergeSort pyDescLE).take top_n).map attachScore := by
    unfold compress_documents
    rw [hemp]
    simp only [Bool.false_eq_true, if_false]
    rw [hs]
  refine ⟨?_, ?_, ?_⟩
  · rw [hcode, mergeSort_pyDescLE_eq_spec]
  · rw [hcode]
    simp only [List.length_map, List.length_take, List.length_mergeSort, List.length_zip, hlen]
    omega
  · rw [hcode]
    have hsorted := List.sorted_mergeSort pyDescLE_trans pyDescLE_total (documents.zip scores)
    have htake := List.Pairwise.sublist
      (List.take_sublist top_n ((documents.zip scores).mergeSort pyDescLE)) hsorted
    rw [List.pairwise_map]
    refine htake.imp ?_
    intro a b hab x y hx hy
    simp only [attachScore, Option.some.injEq] at hx hy
    subst hx
    subst hy
    simpa only [pyDescLE, decide_eq_true_eq] using hab

/-- The normalized form of 0.2 equals the literal. -/
theorem r02_eq : r02 = 0.2 := by
  rw [show r02 = (⟨1, 5, by norm_num, by norm_num⟩ : ℚ) from rfl, Rat.mk'_eq_divInt,
    Rat.divInt_eq_div]
  norm_num

/-- The normalized form of 0.9 equals the literal. -/
theorem r09_eq : r09 = 0.9 := by
  rw [show r09 = (⟨9, 10, by norm_num, by norm_num⟩ : ℚ) from rfl, Rat.mk'_eq_divInt,
    Rat.divInt_eq_div]
  norm_num

/-- The normalized form of 0.5 equals the literal. -/
theorem r05_eq : r05 = 0.5 := by
  rw [show r05 = (⟨1, 2, by norm_num, by norm_num⟩ : ℚ) from rfl, Rat.mk'_eq_divInt,
    Rat.divInt_eq_div]
  norm_num

/-- Instantiation of the C4 theorem at the specification's own example:
candidates `[a, b, c]` with scores `[0.2, 0.9, 0.5]` and `top_n = 2`
rerank to `[b, c]` with scores `0.9` and `0.5` attached. -/
theorem c4_rerank_order_witness :
    compress_documents ceModelEx 2 [docA, docB, docC] "q"
      = [⟨"beta text", { Meta.empty with
            source := some "b.pdf"
            page := some 2
            score := some 0.9 }⟩,
         ⟨"gamma text", { Meta.empty with
            source := some "c.pdf"
            page := some 3
            score := some 0.5 }⟩] := by
  have h := (c4_rerank_order ceModelEx 2 [docA, docB, docC] "q" [0.2, 0.9, 0.5]
    (by decide) rfl rfl).1
  rw [h, show (0.2 : ℚ) = r02 from r02_eq.symm, show (0.9 : ℚ) = r09 from r09_eq.symm,
    show (0.5 : ℚ) = r05 from r05_eq.symm]
  decide

/-- C5: when the scoring model has neither a `score` nor a `predict`
capability, or the scoring call raises, rerank returns the first `top_n`
input candidates in their original order without attaching scores. -/
theorem c5_rerank_fallback (m : CEModel) (top_n : Nat) (documents : List Doc)
    (query : String) :
    (m.scoreFn = none → m.predictFn = none →
      compress_documents m top_n documents query = documents.take top_n) ∧
    (∀ e, ceDispatch m (documents.map fun d => (query, d.page_content)) = some (.error e) →
      compress_documents m top_n documents query = documents.take top_n) := by
  constructor
  · intro h1 h2
    unfold compress_documents
    cases hd : documents.isEmpty with
    | false =>
      simp only [Bool.false_eq_true, if_false]
      have hdis : ceDispatch m (documents.map fun d => (query, d.page_content)) = none := by
        unfold ceDispatch
        rw [h1, h2]
      rw [hdis]
    | true =>
      have hnil : documents = [] := List.isEmpty_iff.1 hd
      subst hnil
      simp
  · intro e he
    unfold compress_documents
    cases hd : documents.isEmpty with
    | false =>
      simp only [Bool.false_eq_true, if_false]
      rw [he]
    | true =>
      have hnil : documents = [] := List.isEmpty_iff.1 hd
      subst hnil
      simp

/-- Instantiation of the C5 theorem: with no capability, and with a raising
`score` call, rerank returns the first two candidates unscored. -/
theorem c5_rerank_fallback_witness :
    compress_documents ceModelNone 2 [docA, docB, docC] "q" = [docA, docB] ∧
    compress_documents ceModelBoom 2 [docA, docB, docC] "q" = [docA, docB] := by
  constructor
  · have h := (c5_rerank_fallback ceModelNone 2 [docA, docB, docC] "q").1 rfl rfl
    rw [h]
    rfl
  · have h := (c5_rerank_fallback ceModelBoom 2 [docA, docB, docC] "q").2 "boom" rfl
    rw [h]
    rfl

/-- The code's inner-loop step is the specification's emission applied to the
indexed candidate. -/
theorem ensembleStep_eq_rrEmit (i : Nat) (st : List String × List Doc) (j : Nat)
    (dl : List Doc) : ensembleStep i st j dl = rrEmit j dl[i]? st := by
  cases h : dl[i]? <;> simp [ensembleStep, rrEmit, h]

/-- Shifting the round index by one is examining the tails. -/
theorem ensembleStep_succ (i : Nat) (st : List String × List Doc) (j : Nat)
    (dl : List Doc) : ensembleStep (i + 1) st j dl = ensembleStep i st j dl.tail := by
  rw [ensembleStep_eq_rrEmit, ensembleStep_eq_rrEmit, List.getElem?_tail]

/-- Emission only appends: a prefix of already-emitted output passes through. -/
theorem rrEmit_acc (j : Nat) (d? : Option Doc) (seen : List String) (acc : List Doc) :
    rrEmit j d? (seen, acc)
      = ((rrEmit j d? (seen, [])).1, acc ++ (rrEmit j d? (seen, [])).2) := by
  cases d? with
  | none => simp [rrEmit]
  | some d =>
    by_cases h : d.page_content ∈ seen <;> simp [rrEmit, h]

/-- Unfolding of one fusion round when at least one list is non-empty. -/
theorem roundRobinFuse_round (seen : List String) (lex vec : List Doc)
    (h : ¬(lex = [] ∧ vec = [])) :
    roundRobinFuse seen lex vec
      = ((roundRobinFuse (rrEmit 1 vec.head? (rrEmit 0 lex.head? (seen, []))).1
            lex.tail vec.tail).1,
         (rrEmit 1 vec.head? (rrEmit 0 lex.head? (seen, []))).2
           ++ (roundRobinFuse (rrEmit 1 vec.head? (rrEmit 0 lex.head? (seen, []))).1
                lex.tail vec.tail).2) := by
  rw [roundRobinFuse]
  rw [if_neg h]

/-- The indexed double loop of the code equals the recursive round-robin of
the specification, for any number of rounds covering both lists. -/
theorem ensembleLoop_eq_roundRobinFuse :
    ∀ (n : Nat) (lex vec : List Doc) (seen : List String) (acc : List Doc),
      max lex.length vec.length = n →
      (List.range n).foldl
        (fun st i => ensembleStep i (ensembleStep i st 0 lex) 1 vec) (seen, acc)
        = ((roundRobinFuse seen lex vec).1, acc ++ (roundRobinFuse seen lex vec).2) := by
  intro n
  induction n with
  | zero =>
    intro lex vec seen acc h
    have hlex : lex = [] := List.length_eq_zero.1 (by omega)
    have hvec : vec = [] := List.length_eq_zero.1 (by omega)
    subst hlex
    subst hvec
    rw [show roundRobinFuse seen [] [] = (seen, []) from by rw [roundRobinFuse]; rfl]
    simp
  | succ n ih =>
    intro lex vec seen acc h
    have hne : ¬(lex = [] ∧ vec = []) := by
      rintro ⟨rfl, rfl⟩
      simp at h
    rw [List.range_succ_eq_map, List.foldl_cons, List.foldl_map]
    have hhead : ∀ st : List String × List Doc,
        ensembleStep 0 (ensembleStep 0 st 0 lex) 1 vec
          = rrEmit 1 vec.head? (rrEmit 0 lex.head? st) := by
      intro st
      rw [ensembleStep_eq_rrEmit, ensembleStep_eq_rrEmit,
        ← List.head?_eq_getElem?, ← List.head?_eq_getElem?]
    rw [hhead]
    rw [List.foldl_ext _
      (fun st i => ensembleStep i (ensembleStep i st 0 lex.tail) 1 vec.tail) _
      (by
        intro st i hi
        rw [Nat.succ_eq_add_one, ensembleStep_succ, ensembleStep_succ])]
    rcases hR1 : rrEmit 0 lex.head? (seen, []) with ⟨s1, o1⟩
    rcases hR2 : rrEmit 1 vec.head? (s1, o1) with ⟨s2, o2sub⟩
    have hsplit : (s2, o2sub)
        = ((rrEmit 1 vec.head? (s1, [])).1, o1 ++ (rrEmit 1 vec.head? (s1, [])).2) := by
      rw [← hR2]
      exact rrEmit_acc 1 vec.head? s1 o1
    have hs2 : s2 = (rrEmit 1 vec.head? (s1, [])).1 := congrArg Prod.fst hsplit
    have ho2eq : o2sub = o1 ++ (rrEmit 1 vec.head? (s1, [])).2 := congrArg Prod.snd hsplit
    have hstart : rrEmit 1 vec.head? (rrEmit 0 lex.head? (seen, acc)) = (s2, acc ++ o2sub) := by
      rw [rrEmit_acc 0 lex.head? seen acc, hR1]
      rw [rrEmit_acc 1 vec.head? s1 (acc ++ o1)]
      rw [← hs2, ho2eq, List.append_assoc]
    rw [hstart]
    rw [ih lex.tail vec.tail s2 (acc ++ o2sub)
      (by simp only [List.length_tail]; omega)]
    rw [roundRobinFuse_round seen lex vec hne, hR1, hR2]
    simp [List.append_assoc]

/-- C6: for every query, the fusion stage merges the lexical and vector
ranked lists by round-robin interleaving over rank positions, lexical first
at each round, skipping any candidate whose content hash was already emitted
by either list, continuing until both lists are exhausted. -/
theorem c6_fusion_round_robin (lex vec : List Doc) :
    ensemble_get_relevant_documents [lex, vec] = (roundRobinFuse [] lex vec).2 := by
  show ((List.range (max lex.length vec.length)).foldl
      (fun st i => ensembleStep i (ensembleStep i st 0 lex) 1 vec) ([], [])).2
    = (roundRobinFuse [] lex vec).2
  rw [ensembleLoop_eq_roundRobinFuse (max lex.length vec.length) lex vec [] [] rfl]
  simp

/-- C7: when the lexical index is empty (the stored corpus has zero chunks,
the store scan raised, or the lexical build raised), the configured base
retriever is the vector retriever itself: retrieval returns exactly the
vector retriever's top-k results, unmodified, without raising. -/
theorem c7_vector_only_fallback (getResult : Except String (List String × List Meta))
    (bm25Build : List Doc → Except String (String → List Doc))
    (vector_retriever : String → List Doc) :
    (∀ e, getResult = .error e →
      ∀ query, initRetrieversBase getResult bm25Build vector_retriever query
        = vector_retriever query) ∧
    (∀ m, getResult = .ok ([], m) →
      ∀ query, initRetrieversBase getResult bm25Build vector_retriever query
        = vector_retriever query) ∧
    (∀ tm e, getResult = .ok tm →
      bm25Build ((tm.1.zip tm.2).map fun p => Doc.mk p.1 p.2) = .error e →
      ∀ query, initRetrieversBase getResult bm25Build vector_retriever query
        = vector_retriever query) := by
  refine ⟨?_, ?_, ?_⟩
  · rintro e rfl query
    rfl
  · rintro m rfl query
    rfl
  · rintro tm e rfl hb query
    unfold initRetrieversBase
    cases htm : tm.1.isEmpty with
    | true => simp [htm]
    | false => simp [htm, hb]

/-- Instantiation of the C7 theorem: an empty stored corpus yields the vector
retriever's own output. -/
theorem c7_vector_only_fallback_witness :
    initRetrieversBase (.ok ([], [])) (fun _ => .ok fun _ => [docB]) okVecRetriever "q"
      = [docA] := by
  exact (c7_vector_only_fallback (.ok ([], [])) (fun _ => .ok fun _ => [docB])
    okVecRetriever).2.1 [] rfl "q"

/-- C10: each ingestion precondition failure (missing file, non-PDF
extension, no page with extractable text) raises before the vector store is
touched: the delete and the insert happen only after all three checks pass,
so on any of these errors the store state is returned unchanged. -/
theorem c10_precondition_errors_keep_store (fileExists : Bool)
    (extracted : List PageText) (chunker : List Doc → List Doc)
    (file_path : String) (source_name : Option String) (vs : VectorStore) :
    (fileExists = false →
      ingest_document_with_resources fileExists extracted chunker file_path source_name vs
        = (.error (.fileNotFound ("File not found: " ++ file_path)), vs)) ∧
    (fileExists = true → pyEndsWith (pyLower file_path) ".pdf" = false →
      ingest_document_with_resources fileExists extracted chunker file_path source_name vs
        = (.error (.valueError "Only PDF files are supported for ingestion."), vs)) ∧
    (fileExists = true → pyEndsWith (pyLower file_path) ".pdf" = true →
      load_pdf_with_metadata extracted file_path (source_name.getD (basename file_path)) = [] →
      ingest_document_with_resources fileExists extracted chunker file_path source_name vs
        = (.error (.valueError "No extractable text found in the PDF."), vs)) := by
  refine ⟨?_, ?_, ?_⟩
  · rintro rfl
    rfl
  · rintro rfl hpdf
    unfold ingest_document_with_resources
    simp [hpdf]
  · rintro rfl hpdf hload
    unfold ingest_document_with_resources
    simp [hpdf, hload]

/-- Instantiation of the C10 theorem: a missing file and an all-empty PDF
each leave a store holding one foreign record untouched. -/
theorem c10_precondition_errors_keep_store_witness :
    ingest_document_with_resources false [some "hello"] (fun d => d) "x.pdf" none vsAfterFirst
      = (.error (.fileNotFound "File not found: x.pdf"), vsAfterFirst) ∧
    ingest_document_with_resources true [none] (fun d => d) "y.pdf" none vsAfterFirst
      = (.error (.valueError "No extractable text found in the PDF."), vsAfterFirst) := by
  constructor
  · exact (c10_precondition_errors_keep_store false [some "hello"] (fun d => d)
      "x.pdf" none vsAfterFirst).1 rfl
  · exact (c10_precondition_errors_keep_store true [none] (fun d => d)
      "y.pdf" none vsAfterFirst).2.2 rfl (by decide) (by decide)

/-- The error-or-success outcome of one file's ingestion never depends on
the store it runs against. -/
theorem ingest_fst_store_independent (f : FileInput) (sn : Option String)
    (chunker : List Doc → List Doc) (vs : VectorStore) :
    (ingest_document_with_resources f.fileExists f.extracted chunker f.file_path sn vs).1
      = fileOutcome f sn chunker := by
  unfold fileOutcome ingest_document_with_resources
  by_cases h1 : f.fileExists
  · by_cases h2 : pyEndsWith (pyLower f.file_path) ".pdf"
    · by_cases h3 : (load_pdf_with_metadata f.extracted f.file_path
          (sn.getD (basename f.file_path))).isEmpty
      · simp [h1, h2, h3]
      · simp [h1, h2, h3]
    · simp [h1, h2]
  · simp [h1]

/-- The batch-result component of one loop iteration when the file succeeds. -/
theorem batchStep_ok (chunker : List Doc → List Doc)
    (source_names : Option (List String)) (acc : BatchResult × VectorStore)
    (idxf : Nat × FileInput) (stats : IngestStats)
    (hout : fileOutcome idxf.2 (sourceNameFor source_names idxf.1) chunker = .ok stats) :
    (batchStep chunker source_names acc idxf).1
      = ⟨acc.1.ingested ++ [⟨idxf.2.file_path,
          (sourceNameFor source_names idxf.1).getD (basename idxf.2.file_path),
          stats.pages, stats.chunks⟩],
         acc.1.failed, acc.1.total_chunks + stats.chunks⟩ := by
  simp only [batchStep]
  rw [ingest_fst_store_independent, hout]

/-- The batch-result component of one loop iteration when the file fails. -/
theorem batchStep_err (chunker : List Doc → List Doc)
    (source_names : Option (List String)) (acc : BatchResult × VectorStore)
    (idxf : Nat × FileInput) (e : IngestErr)
    (hout : fileOutcome idxf.2 (sourceNameFor source_names idxf.1) chunker = .error e) :
    (batchStep chunker source_names acc idxf).1
      = ⟨acc.1.ingested, acc.1.failed ++ [⟨idxf.2.file_path,
          (sourceNameFor source_names idxf.1).getD (basename idxf.2.file_path), e⟩],
         acc.1.total_chunks⟩ := by
  simp only [batchStep]
  rw [ingest_fst_store_independent, hout]

/-- The batch loop yields exactly the per-file outcomes, one entry per file,
independent of the starting accumulator and of the evolving shared store. -/
theorem batch_fold_spec (chunker : List Doc → List Doc)
    (source_names : Option (List String)) :
    ∀ (l : List (Nat × FileInput)) (acc : BatchResult × VectorStore),
      (l.foldl (batchStep chunker source_names) acc).1.ingested
          = acc.1.ingested ++ l.filterMap (okEntry chunker source_names) ∧
      (l.foldl (batchStep chunker source_names) acc).1.failed
          = acc.1.failed ++ l.filterMap (errEntry chunker source_names) ∧
      (l.foldl (batchStep chunker source_names) acc).1.total_chunks
          = acc.1.total_chunks
            + ((l.filterMap (okEntry chunker source_names)).map IngestedEntry.chunks).sum
  | [], acc => by simp
  | idxf :: l, acc => by
    rw [List.foldl_cons]
    obtain ⟨ih1, ih2, ih3⟩ := batch_fold_spec chunker source_names l
      (batchStep chunker source_names acc idxf)
    cases hout : fileOutcome idxf.2 (sourceNameFor source_names idxf.1) chunker with
    | ok stats =>
      have hsok := batchStep_ok chunker source_names acc idxf stats hout
      refine ⟨?_, ?_, ?_⟩
      · rw [ih1, hsok, List.filterMap_cons]
        simp [okEntry, hout]
      · rw [ih2, hsok, List.filterMap_cons]
        simp [errEntry, hout]
      · rw [ih3, hsok, List.filterMap_cons]
        simp [okEntry, hout]
        omega
    | error e =>
      have hst := batchStep_err chunker source_names acc idxf e hout
      refine ⟨?_, ?_, ?_⟩
      · rw [ih1, hst, List.filterMap_cons]
        simp [okEntry, hout]
      · rw [ih2, hst, List.filterMap_cons]
        simp [errEntry, hout]
      · rw [ih3, hst, List.filterMap_cons]
        simp [okEntry, hout]

/-- C8: each file's failure in a batch is caught and recorded as data:
`ingest_many` returns one `ingested` entry per successful file, one `failed`
entry per failing file, and `total_chunks` sums the chunk counts of the
successful files only; every file's outcome is the outcome it would have in
isolation, so a failing file never blocks or removes a sibling's result. -/
theorem c8_batch_isolation (files : List FileInput) (source_names : Option (List String))
    (chunker : List Doc → List Doc) (vs0 : VectorStore)
    (hlen : sourceNamesMismatch source_names files.length = false) :
    ∃ br vs1, ingest_documents files source_names chunker vs0 = .ok (br, vs1) ∧
      br.ingested = files.enum.filterMap (okEntry chunker source_names) ∧
      br.failed = files.enum.filterMap (errEntry chunker source_names) ∧
      br.total_chunks = (br.ingested.map IngestedEntry.chunks).sum := by
  unfold ingest_documents
  cases hfe : files.isEmpty with
  | true =>
    have hnil : files = [] := List.isEmpty_iff.1 hfe
    subst hnil
    exact ⟨⟨[], [], 0⟩, vs0, rfl, by simp, by simp, by simp⟩
  | false =>
    obtain ⟨h1, h2, h3⟩ := batch_fold_spec chunker source_names files.enum (⟨[], [], 0⟩, vs0)
    rw [if_neg (by simp [hfe]), if_neg (by simp [hlen])]
    refine ⟨(files.enum.foldl (batchStep chunker source_names) (⟨[], [], 0⟩, vs0)).1,
      (files.enum.foldl (batchStep chunker source_names) (⟨[], [], 0⟩, vs0)).2, rfl,
      ?_, ?_, ?_⟩
    · simpa using h1
    · simpa using h2
    · rw [h3, h1]
      simp

/-- Instantiation of the C8 theorem on the specification's example shape: a
readable file and an unreadable file; the batch records one success, one
failure, and counts only the success's chunks. -/
theorem c8_batch_isolation_witness :
    ∃ br vs1, ingest_documents [fileOk, fileBad] none (fun d => d) [] = .ok (br, vs1) ∧
      br.ingested = [⟨"ok.pdf", "ok.pdf", 1, 1⟩] ∧
      br.failed = [⟨"bad.pdf", "bad.pdf",
        .valueError "No extractable text found in the PDF."⟩] ∧
      br.total_chunks = 1 := by
  obtain ⟨br, vs1, hok, h1, h2, h3⟩ :=
    c8_batch_isolation [fileOk, fileBad] none (fun d => d) [] rfl
  refine ⟨br, vs1, hok, ?_, ?_, ?_⟩
  · rw [h1]
    decide
  · rw [h2]
    decide
  · rw [h3, h1]
    decide

/-- The numeral characters emitted by the standard library never include the
id separator. -/
theorem digitChar_ne_colon : ∀ m : Nat, Nat.digitChar m ≠ ':' := by
  intro m
  by_cases h : m < 16
  · interval_cases m <;> decide
  · simp only [Nat.digitChar,
      if_neg (by omega : ¬ m = 0), if_neg (by omega : ¬ m = 1),
      if_neg (by omega : ¬ m = 2), if_neg (by omega : ¬ m = 3),
      if_neg (by omega : ¬ m = 4), if_neg (by omega : ¬ m = 5),
      if_neg (by omega : ¬ m = 6), if_neg (by omega : ¬ m = 7),
      if_neg (by omega : ¬ m = 8), if_neg (by omega : ¬ m = 9),
      if_neg (by omega : ¬ m = 10), if_neg (by omega : ¬ m = 11),
      if_neg (by omega : ¬ m = 12), if_neg (by omega : ¬ m = 13),
      if_neg (by omega : ¬ m = 14), if_neg (by omega : ¬ m = 15)]
    decide

/-- No character of a rendered numeral is the id separator. -/
theorem toDigitsCore_ne_colon (b : Nat) :
    ∀ (fuel n : Nat) (ds : List Char), (∀ c ∈ ds, c ≠ ':') →
      ∀ c ∈ Nat.toDigitsCore b fuel n ds, c ≠ ':'
  | 0, n, ds, hds => hds
  | fuel + 1, n, ds, hds => by
    simp only [Nat.toDigitsCore]
    have hcons : ∀ c ∈ Nat.digitChar (n % b) :: ds, c ≠ ':' := by
      intro c hc
      rcases List.mem_cons.1 hc with rfl | hc
      · exact digitChar_ne_colon _
      · exact hds c hc
    by_cases h : n / b = 0
    · rw [if_pos h]
      exact hcons
    · rw [if_neg h]
      exact toDigitsCore_ne_colon b fuel (n / b) _ hcons

/-- No character of `Nat.repr` is the id separator. -/
theorem repr_ne_colon (n : Nat) : ∀ c ∈ (Nat.repr n).data, c ≠ ':' := by
  have h : (Nat.repr n).data = Nat.toDigitsCore 10 (n + 1) n [] := rfl
  rw [h]
  exact toDigitsCore_ne_colon 10 (n + 1) n [] (by simp)

/-- The digit accumulator of the standard renderer only prepends. -/
theorem toDigitsCore_append (b : Nat) :
    ∀ (fuel n : Nat) (ds : List Char),
      Nat.toDigitsCore b fuel n ds = Nat.toDigitsCore b fuel n [] ++ ds
  | 0, n, ds => rfl
  | fuel + 1, n, ds => by
    simp only [Nat.toDigitsCore]
    by_cases h : n / b = 0
    · rw [if_pos h, if_pos h]
      rfl
    · rw [if_neg h, if_neg h]
      rw [toDigitsCore_append b fuel (n / b) (Nat.digitChar (n % b) :: ds),
        toDigitsCore_append b fuel (n / b) [Nat.digitChar (n % b)]]
      simp

/-- Reading back a digit character below ten. -/
theorem digitVal_digitChar (m : Nat) (h : m < 10) : digitVal (Nat.digitChar m) = m := by
  interval_cases m <;> decide

/-- The decimal renderer is correct: reading its output back gives the
number. -/
theorem digitsVal_toDigitsCore :
    ∀ (fuel n : Nat), n < fuel → digitsVal (Nat.toDigitsCore 10 fuel n []) = n
  | 0, n, h => absurd h (Nat.not_lt_zero n)
  | fuel + 1, n, h => by
    simp only [Nat.toDigitsCore]
    by_cases hd : n / 10 = 0
    · rw [if_pos hd]
      have hval := digitVal_digitChar (n % 10) (by omega)
      simp only [digitsVal, List.foldl_cons, List.foldl_nil, Nat.zero_mul, Nat.zero_add]
      omega
    · rw [if_neg hd]
      rw [toDigitsCore_append 10 fuel (n / 10) [Nat.digitChar (n % 10)]]
      have hrec := digitsVal_toDigitsCore fuel (n / 10) (by omega)
      have hval := digitVal_digitChar (n % 10) (by omega)
      simp only [digitsVal, List.foldl_append, List.foldl_cons, List.foldl_nil] at hrec ⊢
      rw [hrec, hval]
      omega

/-- Decimal rendering of naturals is injective. -/
theorem nat_repr_inj {m n : Nat} (h : Nat.repr m = Nat.repr n) : m = n := by
  have hd : Nat.toDigitsCore 10 (m + 1) m [] = Nat.toDigitsCore 10 (n + 1) n [] := by
    have := congrArg String.data h
    exact this
  have hm := digitsVal_toDigitsCore (m + 1) m (Nat.lt_succ_self m)
  have hn := digitsVal_toDigitsCore (n + 1) n (Nat.lt_succ_self n)
  rw [hd] at hm
  omega

/-- `takeWhile` recovers a prefix that wholly satisfies the predicate when
the next element does not. -/
theorem takeWhile_all_append {p : Char → Bool} :
    ∀ (l : List Char) (c : Char) (r : List Char), (∀ x ∈ l, p x = true) → p c = false →
      (l ++ c :: r).takeWhile p = l
  | [], c, r, _, hc => by simp [List.takeWhile_cons, hc]
  | a :: l, c, r, hl, hc => by
    have ha : p a = true := hl a (List.mem_cons_self a l)
    simp only [List.cons_append, List.takeWhile_cons, ha, if_true]
    rw [takeWhile_all_append l c r (fun x hx => hl x (List.mem_cons_of_mem a hx)) hc]

/-- Two decompositions around a last separator occurrence agree on the
separator-free suffix. -/
theorem last_colon_segment (A D A2 D2 : List Char)
    (hD : ∀ c ∈ D, c ≠ ':') (hD2 : ∀ c ∈ D2, c ≠ ':')
    (h : A ++ ':' :: D = A2 ++ ':' :: D2) : D = D2 := by
  have hrev : D.reverse ++ ':' :: A.reverse = D2.reverse ++ ':' :: A2.reverse := by
    have hr := congrArg List.reverse h
    simpa [List.reverse_append, List.reverse_cons, List.append_assoc] using hr
  have hpD : ∀ x ∈ D.reverse, (decide (x ≠ ':')) = true := by
    intro x hx
    simpa using hD x (List.mem_reverse.1 hx)
  have hpD2 : ∀ x ∈ D2.reverse, (decide (x ≠ ':')) = true := by
    intro x hx
    simpa using hD2 x (List.mem_reverse.1 hx)
  have ht := congrArg (List.takeWhile fun c => decide (c ≠ ':')) hrev
  rw [takeWhile_all_append D.reverse ':' A.reverse hpD (by simp),
    takeWhile_all_append D2.reverse ':' A2.reverse hpD2 (by simp)] at ht
  exact List.reverse_inj.1 ht

/-- The chunk-id scheme determines the index component: equal ids force
equal chunk indexes, whatever the filename and page prefixes contain. -/
theorem chunkId_inj (pre1 pre2 : String) {i j : Nat}
    (h : pre1 ++ ":" ++ Nat.repr i = pre2 ++ ":" ++ Nat.repr j) : i = j := by
  have hd := congrArg String.data h
  simp only [String.data_append] at hd
  have h1 : pre1.data ++ ':' :: (Nat.repr i).data
      = pre2.data ++ ':' :: (Nat.repr j).data := by
    simpa [List.append_assoc] using hd
  have hseg := last_colon_segment pre1.data (Nat.repr i).data pre2.data (Nat.repr j).data
    (repr_ne_colon i) (repr_ne_colon j) h1
  have hi : digitsVal (Nat.repr i).data = i := digitsVal_toDigitsCore (i + 1) i (Nat.lt_succ_self i)
  have hj : digitsVal (Nat.repr j).data = j := digitsVal_toDigitsCore (j + 1) j (Nat.lt_succ_self j)
  rw [hseg] at hi
  omega

/-- The ids assigned to one ingestion's chunks are pairwise distinct. -/
theorem chunkIds_nodup (filename : String) (chunks : List Doc) :
    (chunks.enum.map fun ic =>
      filename ++ ":" ++ pageTag ic.2 ++ ":" ++ toString ic.1).Nodup := by
  have henum : chunks.enum.Nodup := by
    apply List.Nodup.of_map Prod.fst
    rw [List.enum_map_fst]
    exact List.nodup_range _
  refine List.Nodup.map_on ?_ henum
  intro x hx y hy hxy
  have hij : x.1 = y.1 :=
    chunkId_inj (filename ++ ":" ++ pageTag x.2) (filename ++ ":" ++ pageTag y.2) hxy
  have hgx : chunks[x.1]? = some x.2 := List.mem_enum_iff_getElem?.1 hx
  have hgy : chunks[y.1]? = some y.2 := List.mem_enum_iff_getElem?.1 hy
  rw [hij] at hgx
  rw [hgx] at hgy
  have hsnd : x.2 = y.2 := by injection hgy
  exact Prod.ext hij hsnd

/-- Source-name counting distributes over store concatenation. -/
theorem countSource_append (l1 l2 : VectorStore) (filename : String) :
    countSource (l1 ++ l2) filename
      = countSource l1 filename + countSource l2 filename := by
  simp [countSource, List.filter_append]

/-- Counting over a cons. -/
theorem countSource_cons (r : VSRecord) (vs : VectorStore) (filename : String) :
    countSource (r :: vs) filename
      = (if r.doc.metadata.source = some filename then 1 else 0)
        + countSource vs filename := by
  by_cases h : r.doc.metadata.source = some filename <;>
    simp [countSource, List.filter_cons, h, Nat.add_comm]

/-- A store with no record of the source counts zero. -/
theorem countSource_eq_zero_of (vs : VectorStore) (filename : String)
    (h : ∀ r ∈ vs, r.doc.metadata.source ≠ some filename) :
    countSource vs filename = 0 := by
  rw [countSource, List.length_eq_zero, List.filter_eq_nil_iff]
  intro r hr
  simpa using h r hr

/-- After the delete, no record of the source remains. -/
theorem mem_delete_not_source (vs : VectorStore) (filename : String) :
    ∀ r ∈ vsDeleteWhereSource vs filename, r.doc.metadata.source ≠ some filename := by
  intro r hr
  have hm := List.mem_filter.1 hr
  simpa using hm.2

/-- Removing records by an id carried by no record of the source leaves the
source count unchanged. -/
theorem countSource_filter_id (filename i : String) :
    ∀ vs : VectorStore, (∀ r ∈ vs, r.doc.metadata.source = some filename → r.id ≠ i) →
      countSource (vs.filter fun r => r.id ≠ i) filename = countSource vs filename
  | [], _ => rfl
  | r :: vs, h => by
    have htail := countSource_filter_id filename i vs
      (fun x hx => h x (List.mem_cons_of_mem r hx))
    by_cases hid : r.id = i
    · have hsrc : r.doc.metadata.source ≠ some filename :=
        fun hs => (h r (List.mem_cons_self r vs) hs) hid
      rw [List.filter_cons, if_neg (by simp [hid])]
      rw [htail, countSource_cons, if_neg hsrc]
      omega
    · rw [List.filter_cons, if_pos (by simp [hid])]
      rw [countSource_cons, countSource_cons, htail]

/-- Invariant of the upsert loop: inserting chunks of the target source under
fresh pairwise-distinct ids grows the source count by exactly the number of
inserted chunks. -/
theorem countSource_upsert_go (filename : String) :
    ∀ (z : List (String × Doc)) (vs : VectorStore) (pids : List String),
      (∀ r ∈ vs, r.doc.metadata.source = some filename → r.id ∈ pids) →
      countSource vs filename = pids.length →
      (∀ p ∈ z, p.2.metadata.source = some filename) →
      (z.map Prod.fst).Nodup →
      (∀ x ∈ pids, x ∉ z.map Prod.fst) →
      countSource (z.foldl (fun acc ic =>
        (acc.filter fun r => r.id ≠ ic.1) ++ [⟨ic.1, ic.2⟩]) vs) filename
        = pids.length + z.length
  | [], vs, pids, _, hcount, _, _, _ => by simpa using hcount
  | (i, c) :: z, vs, pids, hmem, hcount, hsrc, hnd, hdisj => by
    rw [List.foldl_cons]
    have hci : c.metadata.source = some filename := hsrc (i, c) (List.mem_cons_self _ _)
    have hnd2 : (i :: z.map Prod.fst).Nodup := hnd
    have hndc := List.nodup_cons.1 hnd2
    have hine : i ∉ z.map Prod.fst := hndc.1
    have hstep : countSource ((vs.filter fun r => r.id ≠ i) ++ [⟨i, c⟩]) filename
        = pids.length + 1 := by
      rw [countSource_append]
      rw [countSource_filter_id filename i vs (fun r hr hs hieq => by
        have hx := hdisj r.id (hmem r hr hs)
        simp only [List.map_cons, List.mem_cons] at hx
        exact hx (Or.inl hieq))]
      rw [hcount, countSource_cons, if_pos hci]
      simp [countSource]
    have hrec := countSource_upsert_go filename z
      ((vs.filter fun r => r.id ≠ i) ++ [⟨i, c⟩]) (pids ++ [i])
      (by
        intro r hr hs
        rcases List.mem_append.1 hr with hr1 | hr1
        · have hrv : r ∈ vs := (List.mem_filter.1 hr1).1
          exact List.mem_append.2 (Or.inl (hmem r hrv hs))
        · have : r = ⟨i, c⟩ := by simpa using hr1
          subst this
          simp)
      (by rw [hstep]; simp)
      (fun p hp => hsrc p (List.mem_cons_of_mem _ hp))
      hndc.2
      (by
        intro x hx
        rcases List.mem_append.1 hx with hx1 | hx1
        · have hy := hdisj x hx1
          simp only [List.map_cons, List.mem_cons] at hy
          intro hc
          exact hy (Or.inr hc)
        · have : x = i := by simpa using hx1
          subst this
          exact hine)
    rw [hrec]
    simp
    omega

/-- Core of C1: a successful single-file ingest leaves exactly one live
generation of chunks for the target source name — the count of live records
for that source equals the chunk count of this ingest's own chunking pass,
whatever the store held before. -/
theorem countSource_after_ingest (fe : Bool) (ex : List PageText)
    (ch : List Doc → List Doc) (fp : String) (sn : Option String) (filename : String)
    (vs vso : VectorStore) (st : IngestStats)
    (hname : sn.getD (basename fp) = filename)
    (hsrc : ∀ c ∈ ch (load_pdf_with_metadata ex fp filename),
      c.metadata.source = some filename)
    (h : ingest_document_with_resources fe ex ch fp sn vs = (.ok st, vso)) :
    countSource vso filename = st.chunks ∧
    st.chunks = (ch (load_pdf_with_metadata ex fp filename)).length := by
  unfold ingest_document_with_resources at h
  rw [hname] at h
  by_cases h1 : fe
  case neg => simp [h1] at h
  rw [if_neg (by simp [h1])] at h
  by_cases h2 : pyEndsWith (pyLower fp) ".pdf"
  case neg =>
    rw [if_pos (by simp [h2])] at h
    simp at h
  rw [if_neg (by simp [h2])] at h
  by_cases h3 : (load_pdf_with_metadata ex fp filename).isEmpty
  case pos =>
    rw [if_pos h3] at h
    simp at h
  rw [if_neg h3] at h
  simp only [Prod.mk.injEq, Except.ok.injEq] at h
  obtain ⟨hst, hvso⟩ := h
  have hchlen : ((ch (load_pdf_with_metadata ex fp filename)).enum.map fun ic =>
      { ic.2 with metadata := { ic.2.metadata with chunk_index := some ic.1 } }).length
        = (ch (load_pdf_with_metadata ex fp filename)).length := by
    simp
  constructor
  · rw [← hvso, ← hst]
    unfold vsUpsert
    rw [countSource_upsert_go filename _ _ []
      (fun r hr hs => absurd hs (mem_delete_not_source vs filename r hr))
      (countSource_eq_zero_of _ _ (mem_delete_not_source vs filename))
      (by
        intro p hp
        have hp2 := (List.of_mem_zip hp).2
        obtain ⟨ic, hic, heq⟩ := List.mem_map.1 hp2
        have hic2 : ic.2 ∈ ch (load_pdf_with_metadata ex fp filename) :=
          List.getElem?_mem (List.mem_enum_iff_getElem?.1 hic)
        rw [← heq]
        exact hsrc ic.2 hic2)
      (by
        rw [List.map_fst_zip _ _ (by simp)]
        exact chunkIds_nodup filename _)
      (by simp)]
    rw [List.length_nil, List.length_zip]
    simp
  · rw [← hst]
    exact hchlen

/-- C1: ingesting the same source name twice leaves exactly one live
generation of chunks for it: the count of records for that source after the
second ingest equals the number of chunks the second chunking pass produced
alone, with no accumulation from the first ingest.  The chunker hypothesis
records the SemanticChunker contract that chunks inherit the metadata of the
pages they were drawn from (all loaded pages carry the target source name). -/
theorem c1_reingest_no_accumulation (fe1 fe2 : Bool) (ex1 ex2 : List PageText)
    (ch1 ch2 : List Doc → List Doc) (fp1 fp2 : String) (sn1 sn2 : Option String)
    (filename : String) (vs0 vs1 vs2 : VectorStore) (st1 st2 : IngestStats)
    (h1 : ingest_document_with_resources fe1 ex1 ch1 fp1 sn1 vs0 = (.ok st1, vs1))
    (h2 : ingest_document_with_resources fe2 ex2 ch2 fp2 sn2 vs1 = (.ok st2, vs2))
    (hname2 : sn2.getD (basename fp2) = filename)
    (hsrc2 : ∀ c ∈ ch2 (load_pdf_with_metadata ex2 fp2 filename),
      c.metadata.source = some filename) :
    countSource vs2 filename = st2.chunks ∧
    st2.chunks = (ch2 (load_pdf_with_metadata ex2 fp2 filename)).length :=
  countSource_after_ingest fe2 ex2 ch2 fp2 sn2 filename vs1 vs2 st2 hname2 hsrc2 h2

/-- Instantiation of the C1 theorem: ingesting the one-page file `a.pdf`
twice in a row leaves exactly one record for `a.pdf`, the chunk count of the
second pass. -/
theorem c1_reingest_no_accumulation_witness :
    countSource vsAfterFirst "a.pdf" = 1 := by
  have h := c1_reingest_no_accumulation true true [some "hello"] [some "hello"]
    (fun d => d) (fun d => d) "a.pdf" "a.pdf" none none "a.pdf" [] vsAfterFirst vsAfterFirst
    ⟨1, 1⟩ ⟨1, 1⟩ rfl rfl rfl (by decide)
  exact h.1

/-- The backup name differs from the persisted directory name. -/
theorem backup_name_ne (ts : String) :
    CHROMA_PERSIST_DIRECTORY ++ "_corrupt_" ++ ts ≠ CHROMA_PERSIST_DIRECTORY := by
  intro hc
  have hlen := congrArg String.length hc
  have h9 : ("_corrupt_" : String).length = 9 := rfl
  rw [String.length_append, String.length_append, h9] at hlen
  omega

/-- Unfolding of the repair operation when the persisted directory exists:
it is renamed (contents intact) to the timestamped backup, a fresh empty
persisted directory is created, nothing else is removed, and nothing is
deleted. -/
theorem repair_chroma_directory_spec (fs : FS) (ts : String) (fl : List String)
    (hfind : fs.find? (fun d => d.name = CHROMA_PERSIST_DIRECTORY)
      = some ⟨CHROMA_PERSIST_DIRECTORY, fl⟩) :
    repair_chroma_directory fs ts
      = ((fs.filter fun e => e.name ≠ CHROMA_PERSIST_DIRECTORY)
          ++ [⟨CHROMA_PERSIST_DIRECTORY ++ "_corrupt_" ++ ts, fl⟩]
          ++ [⟨CHROMA_PERSIST_DIRECTORY, []⟩],
         CHROMA_PERSIST_DIRECTORY ++ "_corrupt_" ++ ts) := by
  simp only [repair_chroma_directory]
  rw [hfind]
  have hany : ((fs.filter fun e => e.name ≠ CHROMA_PERSIST_DIRECTORY)
      ++ [(⟨CHROMA_PERSIST_DIRECTORY ++ "_corrupt_" ++ ts, fl⟩ : Dir)]).any
        (fun d => d.name = CHROMA_PERSIST_DIRECTORY) = false := by
    rw [Bool.eq_false_iff]
    intro hc
    rw [List.any_eq_true] at hc
    obtain ⟨d, hd, hdn⟩ := hc
    rcases List.mem_append.1 hd with hd1 | hd1
    · have := (List.mem_filter.1 hd1).2
      simp only [decide_eq_true_eq] at hdn this
      exact this (by simpa using hdn)
    · have hdd : d = ⟨CHROMA_PERSIST_DIRECTORY ++ "_corrupt_" ++ ts, fl⟩ := by simpa using hd1
      subst hdd
      simp only [decide_eq_true_eq] at hdn
      exact backup_name_ne ts hdn
  rw [hany]
  simp [List.append_assoc]

/-- C3: on a store-open failure of the recognized corruption class with
repair permitted, exactly one repair attempt and one re-open happen, the
re-open's outcome (success or error) is propagated with no further repair;
on an unrecognized error, or with repair forbidden, the error propagates
with no repair and no file-system change; the repair itself renames the
persisted directory to a `_corrupt_<timestamp>` backup left on disk with its
contents intact (nothing is deleted) and creates a fresh empty directory. -/
theorem c3_corruption_repair (openStore : FS → Except String Unit)
    (allow_repair : Bool) (fs : FS) (ts : String) (e : String) :
    (∀ s, openStore fs = .ok s →
      get_chroma_vectorstore openStore allow_repair fs ts
        = (.ok s, fs, [.openAttempt])) ∧
    (openStore fs = .error e →
      (allow_repair = false ∨ is_recoverable_chroma_error e = false) →
      get_chroma_vectorstore openStore allow_repair fs ts
        = (.error e, fs, [.openAttempt])) ∧
    (openStore fs = .error e → allow_repair = true →
      is_recoverable_chroma_error e = true →
      get_chroma_vectorstore openStore allow_repair fs ts
        = (openStore (repair_chroma_directory fs ts).1,
           (repair_chroma_directory fs ts).1,
           [.openAttempt, .repairAttempt, .openAttempt])) ∧
    (∀ fl, fs.find? (fun d => d.name = CHROMA_PERSIST_DIRECTORY)
        = some ⟨CHROMA_PERSIST_DIRECTORY, fl⟩ →
      (Dir.mk (CHROMA_PERSIST_DIRECTORY ++ "_corrupt_" ++ ts) fl)
          ∈ (repair_chroma_directory fs ts).1 ∧
      (Dir.mk CHROMA_PERSIST_DIRECTORY []) ∈ (repair_chroma_directory fs ts).1 ∧
      (repair_chroma_directory fs ts).2 = CHROMA_PERSIST_DIRECTORY ++ "_corrupt_" ++ ts ∧
      (∀ d ∈ fs, d.name ≠ CHROMA_PERSIST_DIRECTORY →
        d ∈ (repair_chroma_directory fs ts).1)) := by
  refine ⟨?_, ?_, ?_, ?_⟩
  · intro s hok
    unfold get_chroma_vectorstore
    rw [hok]
  · intro herr hno
    unfold get_chroma_vectorstore
    rw [herr]
    have hcond : (!allow_repair || !is_recoverable_chroma_error e) = true := by
      rcases hno with hno | hno <;> simp [hno]
    dsimp only
    rw [if_pos hcond]
  · intro herr hallow hrec
    unfold get_chroma_vectorstore
    rw [herr]
    dsimp only
    rw [if_neg (by simp [hallow, hrec])]
  · intro fl hfind
    rw [repair_chroma_directory_spec fs ts fl hfind]
    refine ⟨by simp, by simp, rfl, ?_⟩
    intro d hd hdn
    simp only [List.mem_append]
    exact Or.inl (Or.inl (List.mem_filter.2 ⟨hd, by simpa using hdn⟩))

/-- Instantiation of the C3 theorem: a store whose open raises the
recognized corruption error is repaired exactly once — the old directory
survives under the timestamped backup name next to a fresh empty store —
and the single re-open succeeds. -/
theorem c3_corruption_repair_witness :
    get_chroma_vectorstore openEx true fsEx "20240101_000000"
      = (.ok (), [⟨"chroma_db_corrupt_20240101_000000", ["data.bin"]⟩,
          ⟨"chroma_db", []⟩],
         [.openAttempt, .repairAttempt, .openAttempt]) := by
  have h := (c3_corruption_repair openEx true fsEx "20240101_000000" corruptText).2.2.1
    rfl rfl (by decide)
  rw [h]
  rfl
